import Mathlib

/-!
Verification development for the software 3D renderer of this repository
(`src/triangle.rs`, `src/framebuffer.rs`, `src/shader.rs`, `src/shaders.rs`,
`src/celestial_shaders.rs`, `src/main.rs`).  Machine `f32` arithmetic is
embedded as exact real arithmetic; `f32` decimal literals are taken at their
decimal value.  Types that live in repository files not present under `src/`
(`color.rs`, `vertex.rs`, `fragment.rs`) are modelled from the spec, and are
marked as such in their doc comments.
-/

noncomputable section

/-- Value type for `nalgebra_glm::Vec3` / raylib `Vector3`: an ordered triple
of floating-point scalars, embedded as real numbers. -/
structure Vec3 where
  x : ℝ
  y : ℝ
  z : ℝ


/-- Value type for 2D screen-space points (raylib `Vector2`). -/
structure Vec2 where
  x : ℝ
  y : ℝ


/-- Componentwise subtraction of vectors. -/
def Vec3.sub (a b : Vec3) : Vec3 := ⟨a.x - b.x, a.y - b.y, a.z - b.z⟩

/-- Componentwise addition of vectors. -/
def Vec3.add (a b : Vec3) : Vec3 := ⟨a.x + b.x, a.y + b.y, a.z + b.z⟩

/-- Scalar multiplication of a vector. -/
def Vec3.smul (a : Vec3) (s : ℝ) : Vec3 := ⟨a.x * s, a.y * s, a.z * s⟩

/-- Negation of a vector (Rust unary minus on `Vec3`). -/
def Vec3.neg (a : Vec3) : Vec3 := ⟨-a.x, -a.y, -a.z⟩

/-- Dot product of two vectors. -/
def Vec3.dot (a b : Vec3) : ℝ := a.x * b.x + a.y * b.y + a.z * b.z

/-- Euclidean norm of a vector (`magnitude`). -/
def Vec3.norm (a : Vec3) : ℝ := Real.sqrt (a.x * a.x + a.y * a.y + a.z * a.z)

/-- The `normalize` operation: divide by the norm.  Real division by zero is
zero in this embedding, so a zero vector normalizes to the zero vector. -/
def Vec3.normalize (a : Vec3) : Vec3 := a.smul (1 / a.norm)

/-- Truncation toward zero, the rounding used by Rust `f32::trunc` and by
Rust `as`-casts from floats to integers. -/
def rustTrunc (a : ℝ) : ℤ := if 0 ≤ a then ⌊a⌋ else ⌈a⌉

/-- Rust `f32::fract`: `self - self.trunc()`.  Note that, unlike GLSL
`fract`, this keeps the sign of the input: it is negative on negative
non-integer inputs. -/
def rustFract (a : ℝ) : ℝ := a - (rustTrunc a : ℝ)

/-- Rust `f32` remainder operator `%`: `a - b * (a / b).trunc()`, with the
sign of the dividend. -/
def rustRem (a b : ℝ) : ℝ := a - b * (rustTrunc (a / b) : ℝ)

/-- Rust `f32::clamp(lo, hi)`. -/
def rustClamp (x lo hi : ℝ) : ℝ := min (max x lo) hi

/-- Saturating cast from `f32` to `u8` (`as u8` in Rust): truncate toward
zero and clamp into `[0, 255]`. -/
def u8sat (x : ℝ) : ℕ := min 255 (rustTrunc x).toNat

/-- Rust `f32::atan2(self, other)`, the two-argument arctangent. -/
def rustAtan2 (y x : ℝ) : ℝ :=
  if 0 < x then Real.arctan (y / x)
  else if x < 0 then
    (if 0 ≤ y then Real.arctan (y / x) + Real.pi else Real.arctan (y / x) - Real.pi)
  else if 0 < y then Real.pi / 2
  else if y < 0 then -(Real.pi / 2)
  else 0

/-- Modelled from the spec: the `Color` type of the repository's missing
`color.rs` ("triple of channel intensities, stored ... as normalized floats in
[0,1] ...; arithmetic (add, scalar multiply) is channel-wise and may exceed
[0,1] before a final clamp at the framebuffer-write boundary").  Channels are
stored as floats; the lossy clamped conversion to packed 8-bit channels
happens at the framebuffer-write boundary (`to_hex`). -/
structure Color where
  r : ℝ
  g : ℝ
  b : ℝ


/-- Modelled from the spec: `Color::from_float` stores the three float
channels. -/
def Color.from_float (r g b : ℝ) : Color := ⟨r, g, b⟩

/-- Modelled from the spec: `Color::to_float` returns the three float
channels. -/
def Color.to_float (c : Color) : ℝ × ℝ × ℝ := (c.r, c.g, c.b)

/-- Modelled from the spec: `Color::new` builds a color from packed 8-bit
channels, normalizing them to `[0,1]` floats. -/
def Color.new (r g b : ℕ) : Color := ⟨(r : ℝ) / 255, (g : ℝ) / 255, (b : ℝ) / 255⟩

/-- Modelled from the spec: channel-wise color addition (used by
`calculate_phong_lighting` as `ambient + diffuse + specular`). -/
def Color.add (c d : Color) : Color := ⟨c.r + d.r, c.g + d.g, c.b + d.b⟩

/-- Modelled from the spec: channel-wise scalar multiplication
(`Color * f32`); the result may exceed `[0,1]`. -/
def Color.scale (c : Color) (s : ℝ) : Color := ⟨c.r * s, c.g * s, c.b * s⟩

/-- Modelled from the spec: the lossy, clamped conversion of a color to
packed 8-bit channels at the framebuffer-write boundary. -/
def Color.to_hex (c : Color) : ℕ × ℕ × ℕ := (u8sat (c.r * 255), u8sat (c.g * 255), u8sat (c.b * 255))

/-- The pseudo-random scalar noise of `celestial_shaders.rs`:
`(x * 12.9898 + y * 78.233 + z * 45.164).sin() * 43758.5453`, then Rust
`fract`. -/
def noise (x y z : ℝ) : ℝ :=
  rustFract (Real.sin (x * 12.9898 + y * 78.233 + z * 45.164) * 43758.5453)

/-- The `smoothstep` curve of `celestial_shaders.rs`: clamp to `[0,1]`, then
`t * t * (3 - 2 * t)`. -/
def smoothstep (t : ℝ) : ℝ :=
  let t' := rustClamp t 0 1
  t' * t' * (3 - 2 * t')

/-- Trilinearly interpolated lattice noise (`noise_interpolated` in
`celestial_shaders.rs`). -/
def noise_interpolated (x y z : ℝ) : ℝ :=
  let xi : ℝ := (⌊x⌋ : ℝ)
  let yi : ℝ := (⌊y⌋ : ℝ)
  let zi : ℝ := (⌊z⌋ : ℝ)
  let xf := x - xi
  let yf := y - yi
  let zf := z - zi
  let u := smoothstep xf
  let v := smoothstep yf
  let w := smoothstep zf
  let n000 := noise xi yi zi
  let n100 := noise (xi + 1) yi zi
  let n010 := noise xi (yi + 1) zi
  let n110 := noise (xi + 1) (yi + 1) zi
  let n001 := noise xi yi (zi + 1)
  let n101 := noise (xi + 1) yi (zi + 1)
  let n011 := noise xi (yi + 1) (zi + 1)
  let n111 := noise (xi + 1) (yi + 1) (zi + 1)
  let x00 := n000 * (1 - u) + n100 * u
  let x10 := n010 * (1 - u) + n110 * u
  let x01 := n001 * (1 - u) + n101 * u
  let x11 := n011 * (1 - u) + n111 * u
  let y0 := x00 * (1 - v) + x10 * v
  let y1 := x01 * (1 - v) + x11 * v
  y0 * (1 - w) + y1 * w

/-- The accumulation loop of `fbm`: octave count, then the running
`value`, `max_value`, `frequency`, `amplitude` of the source loop; returns
the final `(value, max_value)`. -/
def fbmAux (x y z : ℝ) : ℕ → ℝ → ℝ → ℝ → ℝ → ℝ × ℝ
  | 0, value, max_value, _, _ => (value, max_value)
  | n + 1, value, max_value, frequency, amplitude =>
      fbmAux x y z n (value + noise_interpolated (x * frequency) (y * frequency) (z * frequency) * amplitude)
        (max_value + amplitude) (frequency * 2) (amplitude * 0.5)

/-- Fractal Brownian motion (`fbm` in `celestial_shaders.rs`): sum of
interpolated noise at doubling frequency and halving amplitude, divided by
the accumulated amplitude when that is positive. -/
def fbm (x y z : ℝ) (octaves : ℕ) : ℝ :=
  let vm := fbmAux x y z octaves 0 0 1 0.5
  if 0 < vm.2 then vm.1 / vm.2 else vm.1

/-- The accumulation loop of `turbulence`, mirroring the source loop state. -/
def turbulenceAux (x y z : ℝ) : ℕ → ℝ → ℝ → ℝ → ℝ → ℝ × ℝ
  | 0, value, max_value, _, _ => (value, max_value)
  | n + 1, value, max_value, frequency, amplitude =>
      turbulenceAux x y z n
        (value + |noise_interpolated (x * frequency) (y * frequency) (z * frequency) - 0.5| * amplitude)
        (max_value + amplitude * 0.5) (frequency * 2) (amplitude * 0.5)

/-- Turbulence (`turbulence` in `celestial_shaders.rs`): rectified fractal
noise, normalized by the accumulated `amplitude * 0.5` when positive. -/
def turbulence (x y z : ℝ) (octaves : ℕ) : ℝ :=
  let vm := turbulenceAux x y z octaves 0 0 1 1
  if 0 < vm.2 then vm.1 / vm.2 else vm.1

/-- Worley/cellular noise (`worley_noise` in `celestial_shaders.rs`): one
feature point per cell of the 3x3x3 neighborhood, tracking the two smallest
Euclidean distances; returns their clamped difference. -/
def worley_noise (x y z : ℝ) : ℝ :=
  let xi : ℤ := ⌊x⌋
  let yi : ℤ := ⌊y⌋
  let zi : ℤ := ⌊z⌋
  let step : ℝ × ℝ → ℤ × ℤ × ℤ → ℝ × ℝ := fun dists ijk =>
    let cell_x : ℝ := ((xi + ijk.1 : ℤ) : ℝ)
    let cell_y : ℝ := ((yi + ijk.2.1 : ℤ) : ℝ)
    let cell_z : ℝ := ((zi + ijk.2.2 : ℤ) : ℝ)
    let point_x := cell_x + noise cell_x cell_y cell_z
    let point_y := cell_y + noise (cell_x + 1) cell_y cell_z
    let point_z := cell_z + noise cell_x (cell_y + 1) cell_z
    let dx := point_x - x
    let dy := point_y - y
    let dz := point_z - z
    let dist := Real.sqrt (dx * dx + dy * dy + dz * dz)
    if dist < dists.1 then (dist, dists.1)
    else if dist < dists.2 then (dists.1, dist)
    else dists
  let offsets : List (ℤ × ℤ × ℤ) :=
    ([-1, 0, 1].flatMap fun i => [-1, 0, 1].flatMap fun j => [-1, 0, 1].map fun k => (i, j, k))
  let dists := offsets.foldl step (100, 100)
  rustClamp (dists.2 - dists.1) 0 1

/-- Octave scaling (`scale_octaves` in `celestial_shaders.rs`): clamp the
detail level into `[0.4, 1.0]`, scale the base octave count, truncate to an
integer, and clamp the result via `.max(1).min(base)`. -/
def scale_octaves (base : ℕ) (detail_level : ℝ) : ℕ :=
  let detail := rustClamp detail_level 0.4 1.0
  let scaled := ((base : ℝ) * detail |> rustTrunc).toNat
  min (max scaled 1) base

/-- Follows the spec's words for comparison with `scale_octaves` (claim C5):
the plain formula `floor(base * clamp(detailLevel, 0.4, 1.0))` with no
further clamping of the result. -/
def spec_scale_octaves (base : ℕ) (detail_level : ℝ) : ℕ :=
  (⌊(base : ℝ) * rustClamp detail_level 0.4 1.0⌋).toNat

/-- Adaptive fbm (`fbm_adaptive`): route the octave count through
`scale_octaves`. -/
def fbm_adaptive (x y z : ℝ) (base_octaves : ℕ) (detail_level : ℝ) : ℝ :=
  fbm x y z (scale_octaves base_octaves detail_level)

/-- Color interpolation helper (`mix_color` in `celestial_shaders.rs`):
clamp `t` to `[0,1]`, pass it through `smoothstep`, and linearly interpolate
each channel. -/
def mix_color (c1 c2 : Color) (t : ℝ) : Color :=
  let t' := smoothstep (rustClamp t 0 1)
  Color.from_float
    (c1.to_float.1 * (1 - t') + c2.to_float.1 * t')
    (c1.to_float.2.1 * (1 - t') + c2.to_float.2.1 * t')
    (c1.to_float.2.2 * (1 - t') + c2.to_float.2.2 * t')

/-- Weighted multi-color blend (`mix_colors_multi` in
`celestial_shaders.rs`).  The source iterates over the zipped color/weight
lists accumulating weighted channel sums and the total weight; if the total
is positive it normalizes, otherwise it indexes `colors[0]`, which panics on
an empty slice: the panic is modelled by `Option` (`List.head?`). -/
def mix_colors_multi (colors : List Color) (weights : List ℝ) : Option Color :=
  let acc := (colors.zip weights).foldl
    (fun (acc : ℝ × ℝ × ℝ × ℝ) cw =>
      (acc.1 + cw.1.to_float.1 * cw.2,
       acc.2.1 + cw.1.to_float.2.1 * cw.2,
       acc.2.2.1 + cw.1.to_float.2.2 * cw.2,
       acc.2.2.2 + cw.2))
    (0, 0, 0, 0)
  if 0 < acc.2.2.2 then
    some (Color.from_float (acc.1 / acc.2.2.2) (acc.2.1 / acc.2.2.2) (acc.2.2.1 / acc.2.2.2))
  else colors.head?

/-- Reflection vector (`reflect` in `celestial_shaders.rs`):
`incident - normal * 2 * incident.dot(normal)`. -/
def reflect (incident normal : Vec3) : Vec3 :=
  incident.sub ((normal.smul 2).smul (incident.dot normal))

/-- Phong lighting (`calculate_phong_lighting` in `celestial_shaders.rs`). -/
def calculate_phong_lighting (fragment_pos normal light_pos camera_pos : Vec3)
    (base_color : Color) (ambient_strength diffuse_strength specular_strength shininess : ℝ) : Color :=
  let ambient := base_color.scale ambient_strength
  let light_dir := (light_pos.sub fragment_pos).normalize
  let diff := max (normal.dot light_dir) 0
  let diffuse := base_color.scale (diff * diffuse_strength)
  let view_dir := (camera_pos.sub fragment_pos).normalize
  let reflect_dir := reflect light_dir.neg normal
  let spec := (max (reflect_dir.dot view_dir) 0) ^ (shininess : ℝ)
  let specular := (Color.from_float 1 1 1).scale (spec * specular_strength)
  (ambient.add diffuse).add specular

/-- Homogeneous 4-vector (`nalgebra_glm::Vec4`). -/
structure Vec4 where
  x : ℝ
  y : ℝ
  z : ℝ
  w : ℝ

/-- A 4x4 float matrix (`nalgebra_glm::Mat4`); field `mIJ` is the entry at
row `I`, column `J`. -/
structure Mat4 where
  m00 : ℝ
  m01 : ℝ
  m02 : ℝ
  m03 : ℝ
  m10 : ℝ
  m11 : ℝ
  m12 : ℝ
  m13 : ℝ
  m20 : ℝ
  m21 : ℝ
  m22 : ℝ
  m23 : ℝ
  m30 : ℝ
  m31 : ℝ
  m32 : ℝ
  m33 : ℝ

/-- Linear (column-major) indexing of a `Mat4`, as used by nalgebra's
`Index<usize>` implementation: index `k` addresses row `k % 4` of column
`k / 4`.  Only the indices the source uses are needed. -/
def Mat4.lin (M : Mat4) : ℕ → ℝ
  | 0 => M.m00
  | 1 => M.m10
  | 2 => M.m20
  | 3 => M.m30
  | 4 => M.m01
  | 5 => M.m11
  | 6 => M.m21
  | 7 => M.m31
  | 8 => M.m02
  | 9 => M.m12
  | 10 => M.m22
  | 11 => M.m32
  | 12 => M.m03
  | 13 => M.m13
  | 14 => M.m23
  | 15 => M.m33
  | _ => 0

/-- Matrix product of two `Mat4`s. -/
def Mat4.mul (A B : Mat4) : Mat4 :=
  ⟨A.m00 * B.m00 + A.m01 * B.m10 + A.m02 * B.m20 + A.m03 * B.m30,
   A.m00 * B.m01 + A.m01 * B.m11 + A.m02 * B.m21 + A.m03 * B.m31,
   A.m00 * B.m02 + A.m01 * B.m12 + A.m02 * B.m22 + A.m03 * B.m32,
   A.m00 * B.m03 + A.m01 * B.m13 + A.m02 * B.m23 + A.m03 * B.m33,
   A.m10 * B.m00 + A.m11 * B.m10 + A.m12 * B.m20 + A.m13 * B.m30,
   A.m10 * B.m01 + A.m11 * B.m11 + A.m12 * B.m21 + A.m13 * B.m31,
   A.m10 * B.m02 + A.m11 * B.m12 + A.m12 * B.m22 + A.m13 * B.m32,
   A.m10 * B.m03 + A.m11 * B.m13 + A.m12 * B.m23 + A.m13 * B.m33,
   A.m20 * B.m00 + A.m21 * B.m10 + A.m22 * B.m20 + A.m23 * B.m30,
   A.m20 * B.m01 + A.m21 * B.m11 + A.m22 * B.m21 + A.m23 * B.m31,
   A.m20 * B.m02 + A.m21 * B.m12 + A.m22 * B.m22 + A.m23 * B.m32,
   A.m20 * B.m03 + A.m21 * B.m13 + A.m22 * B.m23 + A.m23 * B.m33,
   A.m30 * B.m00 + A.m31 * B.m10 + A.m32 * B.m20 + A.m33 * B.m30,
   A.m30 * B.m01 + A.m31 * B.m11 + A.m32 * B.m21 + A.m33 * B.m31,
   A.m30 * B.m02 + A.m31 * B.m12 + A.m32 * B.m22 + A.m33 * B.m32,
   A.m30 * B.m03 + A.m31 * B.m13 + A.m32 * B.m23 + A.m33 * B.m33⟩

/-- Matrix-vector product `Mat4 * Vec4`. -/
def Mat4.mulVec4 (M : Mat4) (v : Vec4) : Vec4 :=
  ⟨M.m00 * v.x + M.m01 * v.y + M.m02 * v.z + M.m03 * v.w,
   M.m10 * v.x + M.m11 * v.y + M.m12 * v.z + M.m13 * v.w,
   M.m20 * v.x + M.m21 * v.y + M.m22 * v.z + M.m23 * v.w,
   M.m30 * v.x + M.m31 * v.y + M.m32 * v.z + M.m33 * v.w⟩

/-- The identity `Mat4`. -/
def Mat4.id : Mat4 := ⟨1, 0, 0, 0, 0, 1, 0, 0, 0, 0, 1, 0, 0, 0, 0, 1⟩

/-- A 3x3 float matrix (`nalgebra_glm::Mat3`); the constructor takes the
nine entries in row-major order, exactly like `Mat3::new`. -/
structure Mat3 where
  a11 : ℝ
  a12 : ℝ
  a13 : ℝ
  a21 : ℝ
  a22 : ℝ
  a23 : ℝ
  a31 : ℝ
  a32 : ℝ
  a33 : ℝ

/-- The identity `Mat3` (`Mat3::identity()`). -/
def Mat3.id : Mat3 := ⟨1, 0, 0, 0, 1, 0, 0, 0, 1⟩

/-- Transpose of a `Mat3`. -/
def Mat3.transpose (M : Mat3) : Mat3 :=
  ⟨M.a11, M.a21, M.a31, M.a12, M.a22, M.a32, M.a13, M.a23, M.a33⟩

/-- Determinant of a `Mat3`, by cofactor expansion along the first row. -/
def Mat3.det (M : Mat3) : ℝ :=
  M.a11 * (M.a22 * M.a33 - M.a23 * M.a32)
    - M.a12 * (M.a21 * M.a33 - M.a23 * M.a31)
    + M.a13 * (M.a21 * M.a32 - M.a22 * M.a31)

/-- Fallible inverse of a `Mat3` (nalgebra `try_inverse`): `none` when the
determinant vanishes, otherwise the adjugate divided by the determinant. -/
def Mat3.try_inverse (M : Mat3) : Option Mat3 :=
  if M.det = 0 then none
  else some
    ⟨(M.a22 * M.a33 - M.a23 * M.a32) / M.det,
     (M.a13 * M.a32 - M.a12 * M.a33) / M.det,
     (M.a12 * M.a23 - M.a13 * M.a22) / M.det,
     (M.a23 * M.a31 - M.a21 * M.a33) / M.det,
     (M.a11 * M.a33 - M.a13 * M.a31) / M.det,
     (M.a13 * M.a21 - M.a11 * M.a23) / M.det,
     (M.a21 * M.a32 - M.a22 * M.a31) / M.det,
     (M.a12 * M.a31 - M.a11 * M.a32) / M.det,
     (M.a11 * M.a22 - M.a12 * M.a21) / M.det⟩

/-- Matrix-vector product `Mat3 * Vec3`. -/
def Mat3.mulVec (M : Mat3) (v : Vec3) : Vec3 :=
  ⟨M.a11 * v.x + M.a12 * v.y + M.a13 * v.z,
   M.a21 * v.x + M.a22 * v.y + M.a23 * v.z,
   M.a31 * v.x + M.a32 * v.y + M.a33 * v.z⟩

/-- The body-kind tag (`CelestialBody` in `celestial_shaders.rs`). -/
inductive CelestialBody where
  | Sun
  | Earth
  | Jupiter
  | Mars
  | Saturn
  | Ring
  | Moon
  | LavaPlanet
  | IcePlanet
  | AlienPlanet

/-- Modelled from the spec: the `Vertex` type of the repository's missing
`vertex.rs` (object-space position, object-space normal, texture
coordinates, base color, plus the derived screen-space position and
transformed normal populated by the vertex stage). -/
structure Vertex where
  position : Vec3
  normal : Vec3
  tex_coords : Vec2
  color : Color
  transformed_position : Vec3
  transformed_normal : Vec3

/-- Per-draw-call uniforms (`Uniforms` in `main.rs`). -/
structure CUniforms where
  model_matrix : Mat4
  view_matrix : Mat4
  projection_matrix : Mat4
  time : ℝ
  current_shader : CelestialBody
  light_position : Vec3
  camera_position : Vec3
  detail_level : ℝ

/-- Modelled from the spec: the per-pixel `Fragment` type of the missing
`fragment.rs` (screen position, interpolated depth, and the base color slot
later overwritten by the shading result, as read back by `render` in
`main.rs`). -/
structure CFragment where
  position : Vec2
  depth : ℝ
  color : Color

/-- The vertex transform stage (`vertex_shader` in `src/shaders.rs`):
model-view-projection transform, perspective division, fixed viewport
mapping, and the normal-matrix transform
`model_mat3.transpose().try_inverse().unwrap_or(identity)`, where
`model_mat3` is built from the column-major linear indices
0,1,2,4,5,6,8,9,10 of the model matrix fed to the row-major `Mat3::new`. -/
def vertex_shader (vertex : Vertex) (uniforms : CUniforms) : Vertex :=
  let position : Vec4 := ⟨vertex.position.x, vertex.position.y, vertex.position.z, 1⟩
  let model_view := uniforms.view_matrix.mul uniforms.model_matrix
  let mvp := uniforms.projection_matrix.mul model_view
  let transformed := mvp.mulVec4 position
  let w := transformed.w
  let ndc_position : Vec3 := ⟨transformed.x / w, transformed.y / w, transformed.z / w⟩
  let screen_position : Vec3 :=
    ⟨(ndc_position.x + 1) * 600, (1 - ndc_position.y) * 400, ndc_position.z⟩
  let model_mat3 : Mat3 :=
    ⟨uniforms.model_matrix.lin 0, uniforms.model_matrix.lin 1, uniforms.model_matrix.lin 2,
     uniforms.model_matrix.lin 4, uniforms.model_matrix.lin 5, uniforms.model_matrix.lin 6,
     uniforms.model_matrix.lin 8, uniforms.model_matrix.lin 9, uniforms.model_matrix.lin 10⟩
  let normal_matrix := (model_mat3.transpose).try_inverse.getD Mat3.id
  let transformed_normal := normal_matrix.mulVec vertex.normal
  { vertex with transformed_position := screen_position, transformed_normal := transformed_normal }

/-- The true upper-left 3x3 block of a `Mat4`, row by row (the "upper 3x3
block" in the spec's sense). -/
def Mat4.upper3x3 (M : Mat4) : Mat3 :=
  ⟨M.m00, M.m01, M.m02, M.m10, M.m11, M.m12, M.m20, M.m21, M.m22⟩

/-- Follows the spec's words for comparison with `vertex_shader` (claim C9):
transform the normal "by the inverse-transpose of the model matrix's upper
3x3 block (falls back to identity if the block is singular)". -/
def spec_normal_transform (M : Mat4) (n : Vec3) : Vec3 :=
  (((M.upper3x3).transpose).try_inverse.getD Mat3.id).mulVec n

/-- The ring-disk material (`ring_shader` in `celestial_shaders.rs`). -/
def ring_shader (_fragment : CFragment) (vertex : Vertex) (uniforms : CUniforms) : Color :=
  let pos := vertex.position
  let normal := vertex.transformed_normal.normalize
  let fragment_pos := vertex.transformed_position
  let radial_dist := Real.sqrt (pos.x * pos.x + pos.z * pos.z)
  if radial_dist < 0.6 ∨ 1.0 < radial_dist ∨ 0.05 < |pos.y| then Color.new 0 0 0
  else
    let band_pattern := Real.sin (radial_dist * 40)
    let gap_pattern := Real.cos (|radial_dist - 2.5| * 50)
    let ring_color1 := Color.from_float 0.95 0.9 0.75
    let ring_color2 := Color.from_float 0.85 0.8 0.65
    let ring_color3 := Color.from_float 0.75 0.7 0.6
    let gap_color := Color.from_float 0.3 0.28 0.25
    let band_value := (band_pattern + 1) / 2
    let base_color0 :=
      if 0.7 < band_value then ring_color1
      else if 0.4 < band_value then ring_color2
      else ring_color3
    let base_color1 :=
      if 0.5 < gap_pattern then mix_color base_color0 gap_color 0.7 else base_color0
    let particle_noise := fbm (pos.x * 40 + uniforms.time * 0.05) (pos.y * 40)
      (pos.z * 40 - uniforms.time * 0.03) 4
    let particle_color := Color.from_float 0.9 0.85 0.7
    let base_color2 := mix_color base_color1 particle_color (particle_noise * 0.25)
    let density := Real.sin (radial_dist * 15) * 0.5 + 0.5
    let base_color3 := base_color2.scale (0.7 + density * 0.3)
    let base_color4 := calculate_phong_lighting fragment_pos normal uniforms.light_position
      uniforms.camera_position base_color3 0.3 0.7 0.25 8.0
    let light_dir := (uniforms.light_position.sub fragment_pos).normalize
    let backlight := max (-(normal.dot light_dir)) 0
    let glow_color := Color.from_float 1.0 0.95 0.85
    mix_color base_color4 glow_color (backlight * 0.3)

/-- The `Fragment` type of `src/shader.rs` (world position and base color),
consumed by `fragment_shader` and produced per covered pixel by
`triangle_filled`. -/
structure SFragment where
  world_position : Vec3
  color : Vec3

/-- The `Uniforms` type of `src/shader.rs`: time and a pattern selector. -/
structure SUniforms where
  time : ℝ
  pattern : ℕ

/-- Clamp a scalar into `[0,1]` (`clamp01` in `src/shader.rs`). -/
def clamp01 (x : ℝ) : ℝ := min (max x 0) 1

/-- HSV to RGB conversion (`hsv_to_rgb` in `src/shader.rs`). -/
def hsv_to_rgb (h s v : ℝ) : Vec3 :=
  let h := h - (⌊h⌋ : ℝ)
  let i : ℤ := ⌊h * 6⌋
  let f := h * 6 - (i : ℝ)
  let p := v * (1 - s)
  let q := v * (1 - s * f)
  let t := v * (1 - s * (1 - f))
  let m := i.emod 6
  if m = 0 then ⟨v, t, p⟩
  else if m = 1 then ⟨q, v, p⟩
  else if m = 2 then ⟨p, v, t⟩
  else if m = 3 then ⟨p, q, v⟩
  else if m = 4 then ⟨t, p, v⟩
  else ⟨v, p, q⟩

/-- The `pattern_rainbow_rings` fragment pattern of `src/shader.rs`. -/
def pattern_rainbow_rings (pos : Vec3) (time : ℝ) (base : Vec3) : Vec3 :=
  let angle := rustAtan2 pos.x pos.z + time * 0.6
  let _radius := Real.sqrt (pos.x * pos.x + pos.y * pos.y + pos.z * pos.z)
  let stripes := |Real.sin (_radius * 12 + time * 2)|
  let hue := rustRem (rustRem (angle / (2 * Real.pi)) 1 + 1) 1
  let rgb := hsv_to_rgb hue 1 1
  (base.smul (1 - 0.7 * stripes)).add (rgb.smul (0.7 * stripes))

/-- The `pattern_checker3d` fragment pattern of `src/shader.rs`. -/
def pattern_checker3d (pos : Vec3) (time : ℝ) (_base : Vec3) : Vec3 :=
  let scale : ℝ := 4
  let xi : ℤ := ⌊pos.x * scale + time * 0.2⌋
  let yi : ℤ := ⌊pos.y * scale⌋
  let zi : ℤ := ⌊pos.z * scale⌋
  let parity : ℝ := ((Int.xor (Int.xor (Int.land xi 1) (Int.land yi 1)) (Int.land zi 1) : ℤ) : ℝ)
  let hue := rustRem (rustRem (time * 0.1) 1 + 1) 1
  let tint := hsv_to_rgb hue 0.8 1
  let a : Vec3 := ⟨0.15, 0.15, 0.15⟩
  let b : Vec3 := ⟨0.95, 0.95, 0.95⟩
  let base := if 0 < parity then a else b
  (base.smul 0.6).add (tint.smul 0.4)

/-- The `pattern_grid_lines` fragment pattern of `src/shader.rs`. -/
def pattern_grid_lines (pos : Vec3) (time : ℝ) (base : Vec3) : Vec3 :=
  let scale : ℝ := 6
  let fx := |rustFract (pos.x * scale + time * 0.5)|
  let fy := |rustFract (pos.y * scale)|
  let fz := |rustFract (pos.z * scale)|
  let line : ℝ :=
    if min (min fx (1 - fx)) (min (min fy (1 - fy)) (min fz (1 - fz))) < 0.04 then 1 else 0
  let hue := rustRem (rustRem (pos.y * 0.2 + time * 0.2) 1 + 1) 1
  let line_color := hsv_to_rgb hue 1 1
  (base.smul (1 - line)).add (line_color.smul line)

/-- The `pattern_stripes` fragment pattern of `src/shader.rs`. -/
def pattern_stripes (pos : Vec3) (time : ℝ) (base : Vec3) : Vec3 :=
  let v := |Real.sin (pos.x * 8 + pos.y * 3 + time * 2)| ^ (0.8 : ℝ)
  let hue := rustRem (rustRem (pos.z * 0.3 + time * 0.3) 1 + 1) 1
  let color := hsv_to_rgb hue 0.9 v
  (base.smul 0.3).add (color.smul 0.7)

/-- The `pattern_plasma` fragment pattern of `src/shader.rs`. -/
def pattern_plasma (pos : Vec3) (time : ℝ) (base : Vec3) : Vec3 :=
  let s := Real.sin (pos.x * 3 + time) + Real.sin (pos.y * 3 - time * 1.2)
    + Real.sin (pos.z * 3 + time * 0.6)
  let v := 0.5 + 0.5 * Real.sin (s * 0.5)
  let hue := rustRem (rustRem (s * 0.1 + time * 0.1) 1 + 1) 1
  let color := hsv_to_rgb hue 0.9 v
  (base.smul 0.2).add (color.smul 0.8)

/-- The `pattern_red_gradient` fragment pattern of `src/shader.rs`. -/
def pattern_red_gradient (pos : Vec3) (time : ℝ) (_base : Vec3) : Vec3 :=
  let d := Real.sqrt (pos.x * pos.x + pos.y * pos.y + pos.z * pos.z)
  let v := min (max (1 / (1 + d)) 0) 1
  let pulse := Real.sin (time * 2 + d * 2) * 0.1 + 0.9
  ⟨min (max (v * pulse) 0) 1, 0.1 * v, 0.1 * v⟩

/-- The `pattern_material_only` fragment pattern of `src/shader.rs`. -/
def pattern_material_only (_pos : Vec3) (_time : ℝ) (base : Vec3) : Vec3 := base

/-- The fragment shader of `src/shader.rs`: select a pattern by
`uniforms.pattern % 7` and clamp each output channel into `[0,1]`. -/
def fragment_shader (fragment : SFragment) (uniforms : SUniforms) : Vec3 :=
  let pos := fragment.world_position
  let base := fragment.color
  let time := uniforms.time
  let m := uniforms.pattern % 7
  let col :=
    if m = 0 then pattern_rainbow_rings pos time base
    else if m = 1 then pattern_checker3d pos time base
    else if m = 2 then pattern_grid_lines pos time base
    else if m = 3 then pattern_stripes pos time base
    else if m = 4 then pattern_plasma pos time base
    else if m = 5 then pattern_red_gradient pos time base
    else pattern_material_only pos time base
  ⟨clamp01 col.x, clamp01 col.y, clamp01 col.z⟩

/-- The raylib color type used by the old pipeline's framebuffer: packed
8-bit RGBA channels. -/
structure RColor where
  r : ℕ
  g : ℕ
  b : ℕ
  a : ℕ
deriving DecidableEq

/-- The `Framebuffer` of `src/framebuffer.rs`: a color buffer and a depth
buffer sharing the linear index `y * width + x`.  Depth entries live in
`WithTop ℝ`, whose top element embeds `f32::INFINITY`, the reset value. -/
structure Framebuffer where
  width : ℕ
  height : ℕ
  color_buffer : ℕ → RColor
  depth_buffer : ℕ → WithTop ℝ
  background_color : RColor
  current_color : RColor

/-- Linear pixel index (`depth_index` in `src/framebuffer.rs`):
`y * width + x`. -/
def Framebuffer.depth_index (fb : Framebuffer) (x y : ℕ) : ℕ := y * fb.width + x

/-- Frame reset (`clear` in `src/framebuffer.rs`): color buffer to the
background color, depth buffer to `f32::INFINITY`. -/
def Framebuffer.clear (fb : Framebuffer) : Framebuffer :=
  { fb with color_buffer := fun _ => fb.background_color, depth_buffer := fun _ => ⊤ }

/-- Bounds-checked pixel write (`set_pixel_color` in `src/framebuffer.rs`). -/
def Framebuffer.set_pixel_color (fb : Framebuffer) (x y : ℕ) (c : RColor) : Framebuffer :=
  if x < fb.width ∧ y < fb.height then
    { fb with color_buffer := Function.update fb.color_buffer (y * fb.width + x) c }
  else fb

/-- The depth test (`test_and_set_depth` in `src/framebuffer.rs`): out of
bounds fails; otherwise the fragment is accepted, and the buffer updated,
exactly when its depth is strictly less than the stored depth. -/
def Framebuffer.test_and_set_depth (fb : Framebuffer) (x y : ℕ) (depth : ℝ) : Bool × Framebuffer :=
  if fb.width ≤ x ∨ fb.height ≤ y then (false, fb)
  else
    let idx := fb.depth_index x y
    if (depth : WithTop ℝ) < fb.depth_buffer idx then
      (true, { fb with depth_buffer := Function.update fb.depth_buffer idx (depth : WithTop ℝ) })
    else (false, fb)

/-- The depth-test-then-conditional-color-write step of `triangle_filled`
(`src/triangle.rs` lines 76-88): run `test_and_set_depth` and write the
fragment's color only on acceptance. -/
def write_fragment (fb : Framebuffer) (x y : ℕ) (depth : ℝ) (c : RColor) : Framebuffer :=
  let tsd := fb.test_and_set_depth x y depth
  if tsd.1 then tsd.2.set_pixel_color x y c else tsd.2

/-- The edge function of `src/triangle.rs`:
`(c.x - a.x) * (b.y - a.y) - (c.y - a.y) * (b.x - a.x)`. -/
def edge_function (a b c : Vec2) : ℝ :=
  (c.x - a.x) * (b.y - a.y) - (c.y - a.y) * (b.x - a.x)

/-- The per-pixel body of `triangle_filled`'s rasterization loop: the
three-edge sign test, barycentric interpolation, depth test, shading, and
conditional framebuffer write. -/
def rasterize_pixel (p0 p1 p2 : Vec2) (v1 v2 v3 base_color : Vec3) (uniforms : SUniforms)
    (area : ℝ) (fb : Framebuffer) (x y : ℤ) : Framebuffer :=
  let p : Vec2 := ⟨(x : ℝ) + 0.5, (y : ℝ) + 0.5⟩
  let w0 := edge_function p1 p2 p
  let w1 := edge_function p2 p0 p
  let w2 := edge_function p0 p1 p
  if w0 ≤ 0 ∧ w1 ≤ 0 ∧ w2 ≤ 0 then
    let w0n := w0 / area
    let w1n := w1 / area
    let w2n := w2 / area
    let world : Vec3 :=
      ⟨v1.x * w0n + v2.x * w1n + v3.x * w2n,
       v1.y * w0n + v2.y * w1n + v3.y * w2n,
       v1.z * w0n + v2.z * w1n + v3.z * w2n⟩
    let depth := world.z
    let tsd := fb.test_and_set_depth x.toNat y.toNat depth
    if tsd.1 then
      let frag : SFragment := ⟨world, base_color⟩
      let rgb := fragment_shader frag uniforms
      let r := min (max rgb.x 0) 1
      let g := min (max rgb.y 0) 1
      let b := min (max rgb.z 0) 1
      tsd.2.set_pixel_color x.toNat y.toNat ⟨u8sat (r * 255), u8sat (g * 255), u8sat (b * 255), 255⟩
    else tsd.2
  else fb

/-- Inclusive integer range `lo..=hi` as a list (empty when `hi < lo`). -/
def intRange (lo hi : ℤ) : List ℤ := (List.range (hi + 1 - lo).toNat).map fun n => lo + n

/-- The filled-triangle rasterizer (`triangle_filled` in `src/triangle.rs`):
signed screen-space area by the edge function, bounding box clamped to the
framebuffer, degenerate-area early exit, then the per-pixel loop.  The
explicit backface-culling branch of the source is commented out there; the
fill rule `w0 <= 0 && w1 <= 0 && w2 <= 0` is what enforces the orientation
convention. -/
def triangle_filled (framebuffer : Framebuffer) (v1 v2 v3 : Vec3) (base_color : Vec3)
    (uniforms : SUniforms) : Framebuffer :=
  let p0 : Vec2 := ⟨v1.x, v1.y⟩
  let p1 : Vec2 := ⟨v2.x, v2.y⟩
  let p2 : Vec2 := ⟨v3.x, v3.y⟩
  let signed_area := edge_function p0 p1 p2
  let min_x : ℤ := rustTrunc (max ((⌊min (min p0.x p1.x) p2.x⌋ : ℤ) : ℝ) 0)
  let max_x : ℤ := rustTrunc (min ((⌈max (max p0.x p1.x) p2.x⌉ : ℤ) : ℝ) ((framebuffer.width : ℝ) - 1))
  let min_y : ℤ := rustTrunc (max ((⌊min (min p0.y p1.y) p2.y⌋ : ℤ) : ℝ) 0)
  let max_y : ℤ := rustTrunc (min ((⌈max (max p0.y p1.y) p2.y⌉ : ℤ) : ℝ) ((framebuffer.height : ℝ) - 1))
  let area := signed_area
  if |area| < 1e-5 then framebuffer
  else
    (intRange min_y max_y).foldl
      (fun fb y =>
        (intRange min_x max_x).foldl
          (fun fb2 x => rasterize_pixel p0 p1 p2 v1 v2 v3 base_color uniforms area fb2 x y)
          fb)
      framebuffer

/-- The screen-space orientation cross product computed during primitive
assembly in `render` (`src/main.rs`):
`(v1 - v0) x (v2 - v0)` restricted to the XY plane. -/
def cross_z (v0 v1 v2 : Vec3) : ℝ :=
  let edge1_x := v1.x - v0.x
  let edge1_y := v1.y - v0.y
  let edge2_x := v2.x - v0.x
  let edge2_y := v2.y - v0.y
  edge1_x * edge2_y - edge1_y * edge2_x

/-- Primitive assembly with early backface culling (`render` in
`src/main.rs`): vertices are grouped in stride-3 order, and a triangle is
kept only when `cross > 0`; triangles with `cross <= 0` are skipped before
rasterization. -/
def assemble_triangles : List Vertex → List (Vertex × Vertex × Vertex)
  | v0 :: v1 :: v2 :: rest =>
      (if 0 < cross_z v0.transformed_position v1.transformed_position v2.transformed_position
        then [(v0, v1, v2)] else []) ++ assemble_triangles rest
  | _ => []

/-- Folding the accumulation step of `mix_colors_multi` computes the three
weighted channel sums and the total weight. -/
theorem mix_colors_multi_foldl (l : List (Color × ℝ)) (init : ℝ × ℝ × ℝ × ℝ) :
    l.foldl
      (fun (acc : ℝ × ℝ × ℝ × ℝ) cw =>
        (acc.1 + cw.1.to_float.1 * cw.2,
         acc.2.1 + cw.1.to_float.2.1 * cw.2,
         acc.2.2.1 + cw.1.to_float.2.2 * cw.2,
         acc.2.2.2 + cw.2)) init =
      (init.1 + (l.map fun cw => cw.1.r * cw.2).sum,
       init.2.1 + (l.map fun cw => cw.1.g * cw.2).sum,
       init.2.2.1 + (l.map fun cw => cw.1.b * cw.2).sum,
       init.2.2.2 + (l.map fun cw => cw.2).sum) := by
  induction l generalizing init with
  | nil => simp
  | cons hd tl ih =>
      obtain ⟨a, b, c, d⟩ := init
      simp only [List.foldl_cons, List.map_cons, List.sum_cons]
      rw [ih]
      simp only [Color.to_float, Prod.mk.injEq]
      refine ⟨by ring, by ring, by ring, by ring⟩

/-- With equally long lists, the total weight accumulated over the zip is
the sum of the weight list. -/
theorem zip_snd_sum (colors : List Color) (weights : List ℝ)
    (hlen : colors.length = weights.length) :
    ((colors.zip weights).map fun cw => cw.2).sum = weights.sum := by
  have h := List.map_snd_zip colors weights (le_of_eq hlen.symm)
  calc ((colors.zip weights).map fun cw => cw.2).sum
      = ((colors.zip weights).map Prod.snd).sum := rfl
    _ = weights.sum := by rw [h]

/-- C6: for all colors `c1`, `c2` and every parameter `t`,
`mix_color c1 c2 0 = c1`, `mix_color c1 c2 1 = c2`, and
`mix_color c c t = c` exactly. -/
theorem mix_color_boundary_identities (c1 c2 c : Color) (t : ℝ) :
    mix_color c1 c2 0 = c1 ∧ mix_color c1 c2 1 = c2 ∧ mix_color c c t = c := by
  obtain ⟨r1, g1, b1⟩ := c1
  obtain ⟨r2, g2, b2⟩ := c2
  obtain ⟨r, g, b⟩ := c
  refine ⟨?_, ?_, ?_⟩ <;>
    simp [mix_color, smoothstep, rustClamp, Color.from_float, Color.to_float] <;>
    norm_num <;>
    constructor <;> (try constructor) <;> ring

/-- C5 counterexample: at `base = 2`, `detailLevel = 0.4`, the code returns
`1` (because of the final `.max(1).min(base)` clamp), while the claim's
plain formula `floor(base * clamp(detailLevel, 0.4, 1.0))` yields `0`. -/
theorem scale_octaves_counterexample :
    scale_octaves 2 (2 / 5) = 1 ∧ spec_scale_octaves 2 (2 / 5) = 0 := by
  constructor <;>
    · simp [scale_octaves, spec_scale_octaves, rustClamp, rustTrunc]
      norm_num

/-- C5 amended: `scale_octaves` returns the claim's floor formula clamped
into `[1, base]`; it agrees with the plain floor formula whenever
`base >= 3`; for `base >= 1` the result lies in `[1, base]` (in particular
it is never `0`); and the claim's three concrete instances hold. -/
theorem scale_octaves_amended (base : ℕ) (d : ℝ) (hbase : 1 ≤ base) :
    1 ≤ scale_octaves base d ∧ scale_octaves base d ≤ base ∧
    (3 ≤ base → scale_octaves base d = spec_scale_octaves base d) ∧
    scale_octaves 6 1 = 6 ∧ scale_octaves 6 0.4 = 2 ∧ scale_octaves 6 0 = 2 := by
  have hd1 : rustClamp d 0.4 1.0 ≤ 1 := by
    rw [rustClamp]
    exact min_le_of_right_le (by norm_num)
  have hd0 : (0.4 : ℝ) ≤ rustClamp d 0.4 1.0 := by
    rw [rustClamp]
    exact le_min (le_max_right _ _) (by norm_num)
  refine ⟨?_, ?_, ?_, ?_, ?_, ?_⟩
  · exact le_min (le_max_right _ _) hbase
  · exact min_le_right _ _
  · intro h3
    have hprod0 : (0 : ℝ) ≤ (base : ℝ) * rustClamp d 0.4 1.0 :=
      mul_nonneg (Nat.cast_nonneg _) (by linarith)
    have htr : rustTrunc ((base : ℝ) * rustClamp d 0.4 1.0) = ⌊(base : ℝ) * rustClamp d 0.4 1.0⌋ := by
      simp [rustTrunc, hprod0]
    have hfl1 : (1 : ℤ) ≤ ⌊(base : ℝ) * rustClamp d 0.4 1.0⌋ := by
      apply Int.le_floor.mpr
      have hb3 : (3 : ℝ) ≤ (base : ℝ) := by exact_mod_cast h3
      have : (3 : ℝ) * 0.4 ≤ (base : ℝ) * rustClamp d 0.4 1.0 := by
        apply mul_le_mul hb3 hd0 (by norm_num) (by linarith)
      push_cast
      linarith
    have hle : (base : ℝ) * rustClamp d 0.4 1.0 ≤ (((base : ℤ) : ℤ) : ℝ) := by
      push_cast
      calc (base : ℝ) * rustClamp d 0.4 1.0 ≤ (base : ℝ) * 1 :=
            mul_le_mul_of_nonneg_left hd1 (Nat.cast_nonneg _)
        _ = (base : ℝ) := by ring
    have hflb : ⌊(base : ℝ) * rustClamp d 0.4 1.0⌋ ≤ (base : ℤ) := by
      have := Int.floor_le_floor hle
      simpa using this
    simp only [scale_octaves, spec_scale_octaves, htr]
    have h1n : 1 ≤ (⌊(base : ℝ) * rustClamp d 0.4 1.0⌋).toNat := by
      omega
    have hbn : (⌊(base : ℝ) * rustClamp d 0.4 1.0⌋).toNat ≤ base := by
      omega
    omega
  · simp [scale_octaves, rustClamp, rustTrunc]
    norm_num
    try decide
  · simp [scale_octaves, rustClamp, rustTrunc]
    norm_num
    try decide
  · simp [scale_octaves, rustClamp, rustTrunc]
    norm_num
    try decide

/-- Witness for the amended C5 theorem at `base = 6`, `detailLevel = 1`. -/
theorem scale_octaves_amended_witness : 1 ≤ 6 ∧ 1 ≤ scale_octaves 6 1 :=
  ⟨by decide, (scale_octaves_amended 6 1 (by decide)).1⟩

/-- C8: `mix_colors_multi` returns the channel-wise weighted sum of the
colors normalized by the sum of the weights, and when the weight sum is
zero it returns the first color unchanged. -/
theorem mix_colors_multi_weighted (colors : List Color) (weights : List ℝ)
    (hne : colors ≠ []) (hlen : colors.length = weights.length) :
    (weights.sum = 0 → mix_colors_multi colors weights = some (colors.head hne)) ∧
    (0 < weights.sum → mix_colors_multi colors weights =
      some (Color.from_float
        (((colors.zip weights).map fun cw => cw.1.r * cw.2).sum / weights.sum)
        (((colors.zip weights).map fun cw => cw.1.g * cw.2).sum / weights.sum)
        (((colors.zip weights).map fun cw => cw.1.b * cw.2).sum / weights.sum))) := by
  have hfold := mix_colors_multi_foldl (colors.zip weights) (0, 0, 0, 0)
  have hsnd := zip_snd_sum colors weights hlen
  constructor
  · intro h0
    rw [mix_colors_multi, hfold]
    simp only [zero_add]
    rw [hsnd, h0]
    rw [if_neg (by norm_num)]
    exact List.head?_eq_head hne
  · intro hpos
    rw [mix_colors_multi, hfold]
    simp only [zero_add]
    rw [hsnd]
    rw [if_pos hpos]

/-- C8 witness: one color with a zero weight falls back to that color. -/
theorem mix_colors_multi_weighted_witness :
    mix_colors_multi [Color.from_float 1 0 0] [(0 : ℝ)] = some (Color.from_float 1 0 0) :=
  (mix_colors_multi_weighted [Color.from_float 1 0 0] [(0 : ℝ)] (by simp) rfl).1 (by simp)

/-- C10: on an empty colors slice the accumulated weight is zero and the
fallback indexes `colors[0]`, so the call panics (modelled as `none`);
for a non-empty colors slice the call always produces a color. -/
theorem mix_colors_multi_empty_panics :
    (∀ weights : List ℝ, mix_colors_multi [] weights = none) ∧
    (∀ (colors : List Color) (weights : List ℝ), colors ≠ [] →
      (mix_colors_multi colors weights).isSome = true) := by
  constructor
  · intro weights
    simp [mix_colors_multi]
  · intro colors weights hne
    rw [mix_colors_multi]
    split
    · simp
    · obtain ⟨c, cs, rfl⟩ := List.exists_cons_of_ne_nil hne
      simp

/-- C10 witness: the empty slice yields `none`; a singleton slice yields a
color even with an empty weight list. -/
theorem mix_colors_multi_empty_panics_witness :
    mix_colors_multi [] [(1 : ℝ)] = none ∧
    (mix_colors_multi [Color.from_float 0 0 0] []).isSome = true :=
  ⟨mix_colors_multi_empty_panics.1 [(1 : ℝ)],
   mix_colors_multi_empty_panics.2 [Color.from_float 0 0 0] [] (by simp)⟩

/-- C4: any ring fragment whose radial distance from the local origin in
the XZ plane lies below the inner radius 0.6 or above the outer radius 1.0
is returned as the transparent/black sentinel `Color::new(0, 0, 0)`,
whatever the uniforms (in particular the time) and all noise inputs are. -/
theorem ring_shader_outside_annulus (f : CFragment) (v : Vertex) (u : CUniforms)
    (h : Real.sqrt (v.position.x * v.position.x + v.position.z * v.position.z) < 0.6 ∨
      1.0 < Real.sqrt (v.position.x * v.position.x + v.position.z * v.position.z)) :
    ring_shader f v u = Color.new 0 0 0 := by
  rw [ring_shader]
  rcases h with h | h
  · rw [if_pos (Or.inl h)]
  · rw [if_pos (Or.inr (Or.inl h))]

/-- C4 witness: the fragment at the model-local origin has radial distance
0 and is discarded as the sentinel color. -/
theorem ring_shader_outside_annulus_witness :
    ring_shader ⟨⟨0, 0⟩, 0, Color.from_float 0 0 0⟩
      ⟨⟨0, 0, 0⟩, ⟨0, 1, 0⟩, ⟨0, 0⟩, Color.from_float 0 0 0, ⟨0, 0, 0⟩, ⟨0, 1, 0⟩⟩
      ⟨Mat4.id, Mat4.id, Mat4.id, 0, CelestialBody.Ring, ⟨0, 0, 0⟩, ⟨0, 0, 0⟩, 1⟩ =
      Color.new 0 0 0 :=
  ring_shader_outside_annulus _ _ _ (Or.inl (by norm_num [Real.sqrt_zero]))

/-- Writing a fragment never changes the framebuffer dimensions. -/
theorem write_fragment_dims (fb : Framebuffer) (x y : ℕ) (d : ℝ) (c : RColor) :
    (write_fragment fb x y d c).width = fb.width ∧
    (write_fragment fb x y d c).height = fb.height := by
  simp only [write_fragment, Framebuffer.test_and_set_depth, Framebuffer.depth_index,
    Framebuffer.set_pixel_color]
  split_ifs <;> simp

/-- An accepted fragment (in bounds, depth strictly below the stored depth)
writes its color at the pixel's linear index. -/
theorem write_fragment_accept_color (fb : Framebuffer) (x y : ℕ) (d : ℝ) (c : RColor)
    (hx : x < fb.width) (hy : y < fb.height)
    (hd : (d : WithTop ℝ) < fb.depth_buffer (y * fb.width + x)) :
    (write_fragment fb x y d c).color_buffer (y * fb.width + x) = c := by
  have hb : ¬ (fb.width ≤ x ∨ fb.height ≤ y) := by omega
  simp only [write_fragment, Framebuffer.test_and_set_depth, Framebuffer.depth_index,
    Framebuffer.set_pixel_color]
  simp [hb, hd, hx, hy]

/-- An accepted fragment records its depth at the pixel's linear index. -/
theorem write_fragment_accept_depth (fb : Framebuffer) (x y : ℕ) (d : ℝ) (c : RColor)
    (hx : x < fb.width) (hy : y < fb.height)
    (hd : (d : WithTop ℝ) < fb.depth_buffer (y * fb.width + x)) :
    (write_fragment fb x y d c).depth_buffer (y * fb.width + x) = (d : WithTop ℝ) := by
  have hb : ¬ (fb.width ≤ x ∨ fb.height ≤ y) := by omega
  simp only [write_fragment, Framebuffer.test_and_set_depth, Framebuffer.depth_index,
    Framebuffer.set_pixel_color]
  simp [hb, hd, hx, hy]

/-- A rejected fragment (stored depth not strictly greater) leaves the
framebuffer unchanged. -/
theorem write_fragment_reject (fb : Framebuffer) (x y : ℕ) (d : ℝ) (c : RColor)
    (hd : ¬ (d : WithTop ℝ) < fb.depth_buffer (y * fb.width + x)) :
    write_fragment fb x y d c = fb := by
  simp only [write_fragment, Framebuffer.test_and_set_depth, Framebuffer.depth_index]
  by_cases hb : fb.width ≤ x ∨ fb.height ≤ y
  · simp [hb]
  · simp [hb, hd]

/-- C2: with two fragments of depths `d1 < d2` at the same in-bounds pixel,
writing them through the depth test in either order leaves the pixel
colored by the `d1` fragment; and a fragment writes its color only when its
depth is strictly less than the currently stored depth at that pixel. -/
theorem depth_test_closest_wins (fb : Framebuffer) (x y : ℕ) (d1 d2 : ℝ) (c1 c2 : RColor)
    (hx : x < fb.width) (hy : y < fb.height) (h12 : d1 < d2)
    (h1 : (d1 : WithTop ℝ) < fb.depth_buffer (y * fb.width + x)) :
    (write_fragment (write_fragment fb x y d2 c2) x y d1 c1).color_buffer (y * fb.width + x) = c1 ∧
    (write_fragment (write_fragment fb x y d1 c1) x y d2 c2).color_buffer (y * fb.width + x) = c1 ∧
    ∀ (d : ℝ) (c : RColor), ¬ (d : WithTop ℝ) < fb.depth_buffer (y * fb.width + x) →
      (write_fragment fb x y d c).color_buffer (y * fb.width + x) = fb.color_buffer (y * fb.width + x) := by
  refine ⟨?_, ?_, ?_⟩
  · by_cases h2 : (d2 : WithTop ℝ) < fb.depth_buffer (y * fb.width + x)
    · have hw := (write_fragment_dims fb x y d2 c2).1
      have hh := (write_fragment_dims fb x y d2 c2).2
      have hdep := write_fragment_accept_depth fb x y d2 c2 hx hy h2
      have hx' : x < (write_fragment fb x y d2 c2).width := by rw [hw]; exact hx
      have hy' : y < (write_fragment fb x y d2 c2).height := by rw [hh]; exact hy
      have hd' : (d1 : WithTop ℝ) <
          (write_fragment fb x y d2 c2).depth_buffer (y * (write_fragment fb x y d2 c2).width + x) := by
        rw [hw, hdep]
        exact_mod_cast h12
      have := write_fragment_accept_color (write_fragment fb x y d2 c2) x y d1 c1 hx' hy' hd'
      rw [hw] at this
      exact this
    · rw [write_fragment_reject fb x y d2 c2 h2]
      exact write_fragment_accept_color fb x y d1 c1 hx hy h1
  · have hw := (write_fragment_dims fb x y d1 c1).1
    have hdep := write_fragment_accept_depth fb x y d1 c1 hx hy h1
    have hrej : ¬ (d2 : WithTop ℝ) <
        (write_fragment fb x y d1 c1).depth_buffer (y * (write_fragment fb x y d1 c1).width + x) := by
      rw [hw, hdep]
      exact_mod_cast not_lt.mpr (le_of_lt h12)
    have hrej' := write_fragment_reject (write_fragment fb x y d1 c1) x y d2 c2 hrej
    rw [hrej']
    exact write_fragment_accept_color fb x y d1 c1 hx hy h1
  · intro d c hd
    rw [write_fragment_reject fb x y d c hd]

/-- C2 witness: on a cleared 1x1 framebuffer, writing depth 1 then depth 0
leaves the pixel colored by the depth-0 fragment. -/
theorem depth_test_closest_wins_witness :
    (write_fragment
        (write_fragment
          (⟨1, 1, fun _ => ⟨0, 0, 0, 0⟩, fun _ => ⊤, ⟨0, 0, 0, 0⟩, ⟨0, 0, 0, 0⟩⟩ : Framebuffer)
          0 0 1 ⟨9, 9, 9, 255⟩)
        0 0 0 ⟨7, 7, 7, 255⟩).color_buffer 0 = ⟨7, 7, 7, 255⟩ :=
  (depth_test_closest_wins
    (⟨1, 1, fun _ => ⟨0, 0, 0, 0⟩, fun _ => ⊤, ⟨0, 0, 0, 0⟩, ⟨0, 0, 0, 0⟩⟩ : Framebuffer)
    0 0 0 1 ⟨7, 7, 7, 255⟩ ⟨9, 9, 9, 255⟩
    (by decide) (by decide) zero_lt_one (WithTop.coe_lt_top 0)).1

/-- A fold whose step never changes the accumulator is the identity. -/
theorem foldl_step_id {α β : Type} (f : β → α → β) (l : List α) (init : β)
    (h : ∀ b a, a ∈ l → f b a = b) : l.foldl f init = init := by
  induction l generalizing init with
  | nil => rfl
  | cons hd tl ih =>
      rw [List.foldl_cons, h init hd (by simp)]
      exact ih init fun b a ha => h b a (by simp [ha])

/-- The three edge functions at any point sum to the triangle's signed
area. -/
theorem edge_function_sum (p0 p1 p2 p : Vec2) :
    edge_function p1 p2 p + edge_function p2 p0 p + edge_function p0 p1 p =
      edge_function p0 p1 p2 := by
  simp only [edge_function]
  ring

/-- When the signed area is positive, the fill rule
`w0 <= 0 && w1 <= 0 && w2 <= 0` rejects every pixel, so the per-pixel body
leaves the framebuffer untouched. -/
theorem rasterize_pixel_pos_area (p0 p1 p2 : Vec2) (v1 v2 v3 base_color : Vec3)
    (uniforms : SUniforms) (area : ℝ) (fb : Framebuffer) (x y : ℤ)
    (hpos : 0 < area) (harea : area = edge_function p0 p1 p2) :
    rasterize_pixel p0 p1 p2 v1 v2 v3 base_color uniforms area fb x y = fb := by
  rw [rasterize_pixel]
  rw [if_neg]
  intro ⟨hw0, hw1, hw2⟩
  have hsum := edge_function_sum p0 p1 p2 ⟨(x : ℝ) + 0.5, (y : ℝ) + 0.5⟩
  rw [← harea] at hsum
  linarith

/-- Every triangle surviving primitive assembly is front-facing
(`cross > 0`). -/
theorem assemble_triangles_front :
    ∀ (l : List Vertex), ∀ t ∈ assemble_triangles l,
      0 < cross_z t.1.transformed_position t.2.1.transformed_position t.2.2.transformed_position
  | [] => by simp [assemble_triangles]
  | [_] => by simp [assemble_triangles]
  | [_, _] => by simp [assemble_triangles]
  | v0 :: v1 :: v2 :: rest => by
      intro t ht
      rw [assemble_triangles] at ht
      rcases List.mem_append.mp ht with h | h
      · by_cases hc :
          0 < cross_z v0.transformed_position v1.transformed_position v2.transformed_position
        · rw [if_pos hc] at h
          simp at h
          subst h
          exact hc
        · rw [if_neg hc] at h
          simp at h
      · exact assemble_triangles_front rest t h

/-- C1: a back-facing triangle (signed screen-space area with the
back-facing sign, i.e. `edge_function >= 0`, equivalently `cross <= 0`)
contributes zero fragments: `triangle_filled` returns the framebuffer
unchanged (no color or depth write), every triangle surviving primitive
assembly in `render` is front-facing, and the two orientation conventions
agree (`cross_z = -edge_function` on the projected vertices). -/
theorem backface_zero_fragments (fb : Framebuffer) (v1 v2 v3 base_color : Vec3)
    (u : SUniforms) (verts : List Vertex)
    (hback : 0 ≤ edge_function ⟨v1.x, v1.y⟩ ⟨v2.x, v2.y⟩ ⟨v3.x, v3.y⟩) :
    triangle_filled fb v1 v2 v3 base_color u = fb ∧
    (∀ t ∈ assemble_triangles verts,
      0 < cross_z t.1.transformed_position t.2.1.transformed_position t.2.2.transformed_position) ∧
    (∀ a b c : Vec3, cross_z a b c = - edge_function ⟨a.x, a.y⟩ ⟨b.x, b.y⟩ ⟨c.x, c.y⟩) := by
  refine ⟨?_, assemble_triangles_front verts, ?_⟩
  · rw [triangle_filled]
    by_cases hsmall : |edge_function ⟨v1.x, v1.y⟩ ⟨v2.x, v2.y⟩ ⟨v3.x, v3.y⟩| < 1e-5
    · rw [if_pos hsmall]
    · rw [if_neg hsmall]
      have hpos : 0 < edge_function ⟨v1.x, v1.y⟩ ⟨v2.x, v2.y⟩ ⟨v3.x, v3.y⟩ := by
        rcases lt_or_eq_of_le hback with h | h
        · exact h
        · exfalso
          apply hsmall
          rw [← h]
          norm_num
      apply foldl_step_id
      intro fbb yy _
      apply foldl_step_id
      intro fb2 xx _
      exact rasterize_pixel_pos_area _ _ _ _ _ _ _ _ _ _ _ _ hpos rfl
  · intro a b c
    simp only [cross_z, edge_function]
    ring

/-- C1 witness: a concrete clockwise (back-facing) triangle neither fills
any pixel nor survives assembly conventions. -/
theorem backface_zero_fragments_witness :
    triangle_filled
      (⟨4, 4, fun _ => ⟨0, 0, 0, 0⟩, fun _ => ⊤, ⟨0, 0, 0, 0⟩, ⟨0, 0, 0, 0⟩⟩ : Framebuffer)
      ⟨0, 0, 0⟩ ⟨0, 1, 0⟩ ⟨1, 0, 0⟩ ⟨1, 1, 1⟩ ⟨0, 0⟩ =
      (⟨4, 4, fun _ => ⟨0, 0, 0, 0⟩, fun _ => ⊤, ⟨0, 0, 0, 0⟩, ⟨0, 0, 0, 0⟩⟩ : Framebuffer) :=
  (backface_zero_fragments
    (⟨4, 4, fun _ => ⟨0, 0, 0, 0⟩, fun _ => ⊤, ⟨0, 0, 0, 0⟩, ⟨0, 0, 0, 0⟩⟩ : Framebuffer)
    ⟨0, 0, 0⟩ ⟨0, 1, 0⟩ ⟨1, 0, 0⟩ ⟨1, 1, 1⟩ ⟨0, 0⟩ []
    (by norm_num [edge_function])).1

/-- The transformed normal produced by `vertex_shader` is the normal
multiplied by `try_inverse` of the (untransposed) upper 3x3 block: the
column-major extraction already transposes the block, and the source's
later `.transpose()` cancels it. -/
theorem vertex_shader_transformed_normal (v : Vertex) (u : CUniforms) :
    (vertex_shader v u).transformed_normal =
      ((u.model_matrix.upper3x3).try_inverse.getD Mat3.id).mulVec v.normal := rfl

/-- Multiplying a vector by `try_inverse` (with identity fallback) and then
by the matrix itself recovers the vector when the determinant is nonzero. -/
theorem Mat3.mul_try_inverse_vec (M : Mat3) (n : Vec3) (hdet : M.det ≠ 0) :
    M.mulVec ((M.try_inverse.getD Mat3.id).mulVec n) = n := by
  obtain ⟨a11, a12, a13, a21, a22, a23, a31, a32, a33⟩ := M
  obtain ⟨nx, ny, nz⟩ := n
  simp only [Mat3.det] at hdet
  rw [Mat3.try_inverse]
  rw [if_neg (by simpa [Mat3.det] using hdet)]
  simp only [Option.getD, Mat3.mulVec, Mat3.det, Vec3.mk.injEq]
  refine ⟨?_, ?_, ?_⟩ <;> field_simp <;> ring

/-- A shear model matrix whose upper 3x3 block is not symmetric, used to
separate the inverse from the inverse-transpose. -/
def shearModel : Mat4 := ⟨1, 1, 0, 0, 0, 1, 0, 0, 0, 0, 1, 0, 0, 0, 0, 1⟩

/-- Uniforms carrying the shear model matrix. -/
def shearUniforms : CUniforms :=
  ⟨shearModel, Mat4.id, Mat4.id, 0, CelestialBody.Ring, ⟨0, 0, 0⟩, ⟨0, 0, 0⟩, 1⟩

/-- A vertex with normal `(0, 1, 0)`. -/
def shearVertex : Vertex :=
  ⟨⟨0, 0, 0⟩, ⟨0, 1, 0⟩, ⟨0, 0⟩, Color.from_float 0 0 0, ⟨0, 0, 0⟩, ⟨0, 0, 0⟩⟩

/-- C9 counterexample: under the shear model matrix, the vertex stage sends
the normal `(0,1,0)` to `(-1,1,0)`, while the spec's inverse-transpose of
the upper 3x3 block would send it to `(0,1,0)`: the code does not transform
normals by the inverse-transpose. -/
theorem normal_matrix_counterexample :
    (vertex_shader shearVertex shearUniforms).transformed_normal ≠
      spec_normal_transform shearUniforms.model_matrix shearVertex.normal := by
  have hL : (vertex_shader shearVertex shearUniforms).transformed_normal = ⟨-1, 1, 0⟩ := by
    rw [vertex_shader_transformed_normal]
    norm_num [shearUniforms, shearModel, shearVertex, Mat4.upper3x3, Mat3.try_inverse,
      Mat3.det, Mat3.id, Mat3.mulVec]
  have hR : spec_normal_transform shearUniforms.model_matrix shearVertex.normal = ⟨0, 1, 0⟩ := by
    norm_num [spec_normal_transform, shearUniforms, shearModel, shearVertex, Mat4.upper3x3,
      Mat3.transpose, Mat3.try_inverse, Mat3.det, Mat3.id, Mat3.mulVec]
  rw [hL, hR]
  intro h
  rw [Vec3.mk.injEq] at h
  norm_num at h

/-- C9 amended: the vertex stage transforms every normal by the plain
inverse of the model matrix's upper 3x3 block (so multiplying the result
back by that block recovers the normal), falls back to the identity when
the block is singular, and is total. -/
theorem normal_matrix_amended (v : Vertex) (u : CUniforms) :
    (u.model_matrix.upper3x3.det ≠ 0 →
      u.model_matrix.upper3x3.mulVec ((vertex_shader v u).transformed_normal) = v.normal) ∧
    (u.model_matrix.upper3x3.det = 0 →
      (vertex_shader v u).transformed_normal = v.normal) := by
  constructor
  · intro hdet
    rw [vertex_shader_transformed_normal]
    exact Mat3.mul_try_inverse_vec _ _ hdet
  · intro hdet
    rw [vertex_shader_transformed_normal]
    rw [Mat3.try_inverse, if_pos hdet]
    obtain ⟨nx, ny, nz⟩ := v.normal
    simp [Option.getD, Mat3.id, Mat3.mulVec]

/-- C9 witness: the shear block has determinant 1, and multiplying the
transformed normal back by the block recovers `(0, 1, 0)`. -/
theorem normal_matrix_amended_witness :
    shearUniforms.model_matrix.upper3x3.det ≠ 0 ∧
    shearUniforms.model_matrix.upper3x3.mulVec
      ((vertex_shader shearVertex shearUniforms).transformed_normal) = shearVertex.normal :=
  ⟨by norm_num [shearUniforms, shearModel, Mat4.upper3x3, Mat3.det],
   (normal_matrix_amended shearVertex shearUniforms).1
     (by norm_num [shearUniforms, shearModel, Mat4.upper3x3, Mat3.det])⟩

/-- At integer lattice coordinates the trilinear interpolation collapses to
the raw noise at that lattice point. -/
theorem noise_interpolated_int (a b c : ℤ) :
    noise_interpolated (a : ℝ) (b : ℝ) (c : ℝ) = noise (a : ℝ) (b : ℝ) (c : ℝ) := by
  have hs : smoothstep 0 = 0 := by
    simp [smoothstep, rustClamp]
  simp only [noise_interpolated, Int.floor_intCast, sub_self, hs]
  ring_nf

/-- The raw noise at `(-173910, 28876, 0)` is strictly negative: the sine
argument evaluates to exactly `-1/100`, and Rust `fract` keeps the sign of
the negative product. -/
theorem noise_failing_neg : noise (-173910 : ℝ) (28876 : ℝ) (0 : ℝ) < 0 := by
  have harg : (-173910 : ℝ) * 12.9898 + (28876 : ℝ) * 78.233 + (0 : ℝ) * 45.164 = -(1 / 100) := by
    norm_num
  have hs1 : Real.sin (1 / 100) < 1 / 100 := Real.sin_lt (by norm_num)
  have hs2 : (1 / 100 : ℝ) - (1 / 100) ^ 3 / 4 < Real.sin (1 / 100) :=
    Real.sin_gt_sub_cube (by norm_num) (by norm_num)
  have hsin : Real.sin (-(1 / 100)) = -Real.sin (1 / 100) := Real.sin_neg _
  set P : ℝ := Real.sin (-(1 / 100)) * 43758.5453 with hP
  have hPlb : (-438 : ℝ) < P := by
    rw [hP, hsin]
    nlinarith [hs1]
  have hPub : P < (-437.5 : ℝ) := by
    rw [hP, hsin]
    nlinarith [hs2]
  have hceil : ⌈P⌉ = -437 := by
    have h1 : ⌈P⌉ ≤ -437 := Int.ceil_le.mpr (by push_cast; linarith)
    have h2 : (-438 : ℤ) < ⌈P⌉ := Int.lt_ceil.mpr (by push_cast; linarith)
    omega
  have hnotnonneg : ¬ (0 : ℝ) ≤ P := by linarith
  rw [noise, harg]
  rw [rustFract, rustTrunc, if_neg hnotnonneg, ← hP, hceil]
  push_cast
  linarith

/-- C3 failing input: `fbm(-173910, 28876, 0)` with octave count 1 (within
the claimed range 1 through 8) is strictly negative, contradicting the
claimed output range `[0, 1]`.  The cause is `noise`: Rust `f32::fract`
keeps the sign of its input, so `noise` is negative wherever the hashed
sine product is negative, and the fbm normalization preserves that sign. -/
theorem fbm_range_failing_input : fbm (-173910 : ℝ) (28876 : ℝ) (0 : ℝ) 1 < 0 := by
  have hni : noise_interpolated ((-173910 : ℤ) : ℝ) ((28876 : ℤ) : ℝ) ((0 : ℤ) : ℝ) =
      noise ((-173910 : ℤ) : ℝ) ((28876 : ℤ) : ℝ) ((0 : ℤ) : ℝ) :=
    noise_interpolated_int _ _ _
  push_cast at hni
  have hneg := noise_failing_neg
  rw [fbm]
  simp only [fbmAux]
  norm_num
  rw [hni]
  linarith
